import Mathlib

/-!
Verification of the DICOM image viewer's series-assembly and display-parameter
pipeline, shallowly embedded from the TypeScript source
(`src/components/Viewer.tsx`, `src/components/Trial.tsx`,
`src/components/FileUpload.tsx`).

`Viewer.tsx` contains two component variants.  The second variant (lines
1271-1886) is the one that consumes the `seriesGroups` map built by
`FileUpload.tsx`; that variant's `processFiles`, `updateStack`, `handleScroll`
and `handleKeyDown` are embedded below, together with the first variant's
window/level defaulting block (lines 511-554) and the auto-windowing and
clamping logic of `Trial.tsx` (`loadDicomImage`, lines 355-607).

JavaScript numbers obtained from `parseFloat`/`parseInt` of DICOM tag strings
are modelled as `Option ℚ` / `Option Int`: `none` stands for an absent tag or
a parse producing `NaN`.  Pixel statistics coming out of a decoded typed
array are finite, and are modelled as `ℚ`.
-/

namespace DicomViewer

/-! ## Data model: files, metadata and series

One uploaded file as seen by the second variant's `processFiles`
(`Viewer.tsx` 1284-1335).  `parse = none` models `dicomParser.parseDicom`
throwing (malformed / non-DICOM input); on success the tag reads used by the
assembler are recorded.  `modality` and `instanceNumber` keep the rawness of
`dataset.string("x00080060")` / `dataset.intString("x00200013")`: `none`
means the tag is absent, and the `|| "OT"` / `|| 0` defaults are applied at
the use sites exactly as in the source. -/

structure FileMeta where
  modality : Option String
  instanceNumber : Option Int
  deriving DecidableEq

structure DicomFile where
  name : String
  imageId : String
  parse : Option FileMeta
  deriving DecidableEq

/-- A display series as assembled by `processFiles` (`Viewer.tsx` 43-49,
1277-1282). -/
structure Series where
  seriesInstanceUID : String
  seriesNumber : Nat
  modality : String
  imageIds : List String
  deriving DecidableEq

/-! ## Series assembler (second variant `processFiles`, `Viewer.tsx` 1271-1350)

The for-loop over one group's files: a successful parse overwrites
`series.modality` (`series.modality = modality`, line 1293) and appends the
file's image id (`series.imageIds.push(imageId)`, line 1318); a failed parse
pushes the file's display name onto the error list (lines 1328-1334; the
free-text exception message appended in the source is external input and is
elided).  Thumbnail generation (line 1326) does not affect the assembled
series list and is not modelled. -/

def assembleFile (p : Series × List String) (f : DicomFile) : Series × List String :=
  match f.parse with
  | some m =>
      ({ p.1 with
          modality := m.modality.getD "OT"
          imageIds := p.1.imageIds ++ [f.imageId] }, p.2)
  | none => (p.1, p.2 ++ [f.name])

def assembleFiles (s : Series) (errs : List String) (files : List DicomFile) :
    Series × List String :=
  files.foldl assembleFile (s, errs)

/-- `seriesMap.set` on the association list that models the JS `Map`
(insertion order preserved, existing key replaced in place). -/
def mapSet : List Series → Series → List Series
  | [], s => [s]
  | t :: ts, s =>
      if t.seriesInstanceUID = s.seriesInstanceUID then s :: ts
      else t :: mapSet ts s

/-- The start value of one group iteration, `seriesMap.get(seriesInstanceUID)`
with the fresh-series default of lines 1277-1282 (synthetic `seriesNumber =
seriesMap.size + 1`, modality `"OT"`, empty image list). -/
def groupStart (m : List Series) (key : String) : Series :=
  match m.find? (fun s => s.seriesInstanceUID = key) with
  | some s => s
  | none =>
      { seriesInstanceUID := key
        seriesNumber := m.length + 1
        modality := "OT"
        imageIds := [] }

/-- One iteration of `for (const [groupKey, groupFiles] of seriesGroups)`
(`Viewer.tsx` 1275-1340): look the key up in the map (fresh default
otherwise), fold the group's files, drop the group when no image survived
(`if (series.imageIds.length > 0)`, line 1337). -/
def processGroup (acc : List Series × List String) (g : String × List DicomFile) :
    List Series × List String :=
  let r := assembleFiles (groupStart acc.1 g.1) acc.2 g.2
  if r.1.imageIds = [] then (acc.1, r.2) else (mapSet acc.1 r.1, r.2)

def processGroups (acc : List Series × List String) :
    List (String × List DicomFile) → List Series × List String
  | [] => acc
  | g :: gs => processGroups (processGroup acc g) gs

/-! ## The JS stable sort

`Array.prototype.sort` with a numeric comparator is stable (ES2019), i.e. it
orders by the key and keeps input order on ties.  It is modelled by a left
fold that inserts each element after every already-placed element whose key
is less than or equal to its own. -/

def insertByKey (key : α → Int) (x : α) : List α → List α
  | [] => [x]
  | y :: ys => if key y ≤ key x then y :: insertByKey key x ys else x :: y :: ys

def sortByKey (key : α → Int) (l : List α) : List α :=
  l.foldl (fun acc x => insertByKey key x acc) []

/-- `processFiles` proper: process every group, then
`Array.from(seriesMap.values()).sort((a, b) => a.seriesNumber - b.seriesNumber)`
(`Viewer.tsx` 1347-1349).  Returns the sorted series list together with the
per-file failure report (surfaced via `setError` alongside
`setSeriesList(sortedSeries)`, lines 1350 and 1363-1369). -/
def processFiles (groups : List (String × List DicomFile)) :
    List Series × List String :=
  let r := processGroups ([], []) groups
  (sortByKey (fun s => (s.seriesNumber : Int)) r.1, r.2)

/-- The image ids of the files of one group that parse successfully, in input
order. -/
def validIds (files : List DicomFile) : List String :=
  (files.filter (fun f => f.parse.isSome)).map (fun f => f.imageId)

/-- The display names of the files of one group that fail to parse, in input
order. -/
def failedNames (files : List DicomFile) : List String :=
  (files.filter (fun f => f.parse.isNone)).map (fun f => f.name)

/-- The effective modality contributed by a successfully parsed file:
`dataset.string("x00080060") || "OT"` (`Viewer.tsx` 1292). -/
def effModality (m : FileMeta) : String := m.modality.getD "OT"

/-! ## Trial variant: per-series instance sort (`Trial.tsx` 336-353)

`handleSeriesClick` sorts the clicked series' instances with
`series.instances.sort((a, b) => (a.instanceNumber || 0) - (b.instanceNumber || 0))`
and maps them to image ids.  `instanceNumber` is `parseInt` of the tag
string, so `none` models `NaN`; `|| 0` maps both `NaN` and `0` to `0`. -/

structure TrialInstance where
  imageId : String
  instanceNumber : Option Int
  deriving DecidableEq

def instKey (i : TrialInstance) : Int := i.instanceNumber.getD 0

def handleSeriesClickIds (insts : List TrialInstance) : List String :=
  (sortByKey instKey insts).map (fun i => i.imageId)

/-! ## Display parameter resolution, first Viewer variant
(`Viewer.tsx` 511-554)

The metadata strings have been through `parseFloat`, modelled as `Option ℚ`
(`none` = absent tag or `NaN`).  The guard

  `if (!windowCenter || !windowWidth || isNaN(windowCenter) || isNaN(windowWidth))`

tests JS truthiness of the parsed numbers, so it also fires when a value
parses to exactly `0`.  `DEFAULT_VOI` is an object literal with the four
own-keys `CT`, `MR`, `MONOCHROME`, `DEFAULT`, and `modality in DEFAULT_VOI`
is the JS `in` operator, which also walks the prototype chain: it is true as
well for every `Object.prototype` property name (`"toString"`,
`"valueOf"`, `"constructor"`, `"hasOwnProperty"`, ...).  For
`"MONOCHROME"` the selected value is the arrow function stored under that
key, and for a prototype property it is the inherited method (or
`Object.prototype` itself for `"__proto__"`): destructuring
`{ windowCenter, windowWidth }` from any of those yields `undefined`
(modelled `none`), while `"DEFAULT"` selects the 128/256 record. -/

structure VoiInput where
  windowCenter : Option ℚ
  windowWidth : Option ℚ
  modality : String
  photometric : String
  bitsAllocated : Nat
  deriving DecidableEq

/-- `pat` matches at the head of `l`. -/
def leadsWith : List Char → List Char → Bool
  | [], _ => true
  | _ :: _, [] => false
  | a :: as, b :: bs => a == b && leadsWith as bs

/-- `pat` occurs somewhere in `l`. -/
def hasSub (pat : List Char) : List Char → Bool
  | [] => leadsWith pat []
  | c :: t => leadsWith pat (c :: t) || hasSub pat t

/-- `s.includes(pat)` on JS strings. -/
def includesStr (s pat : String) : Bool := hasSub pat.data s.data

/-- The `Object.prototype` property names visible to the JS `in` operator
on an object literal (the members a plain object inherits). -/
def protoKeys : List String :=
  ["constructor", "hasOwnProperty", "isPrototypeOf", "propertyIsEnumerable",
   "toLocaleString", "toString", "valueOf", "__proto__", "__defineGetter__",
   "__defineSetter__", "__lookupGetter__", "__lookupSetter__"]

/-- The guard-true branch of lines 529-548: the modality-specific
`DEFAULT_VOI` fallback.  `modality in DEFAULT_VOI` hits the own keys `CT`,
`MR`, `MONOCHROME`, `DEFAULT` and every `Object.prototype` property name;
destructuring a non-record hit (`"MONOCHROME"`'s stored function, an
inherited method) yields `undefined`/`undefined`, modelled `(none, none)`. -/
def defaultVoi (modality photometric : String) (bitsAllocated : Nat) :
    Option ℚ × Option ℚ :=
  if includesStr photometric "MONOCHROME" then
    if modality = "CT" then (some 0, some 400)
    else if modality = "MR" then (some 500, some 1000)
    else if modality = "MONOCHROME" then (none, none)
    else if modality = "DEFAULT" then (some 128, some 256)
    else if modality ∈ protoKeys then (none, none)
    else if bitsAllocated = 16 then (some 2048, some 4096)
    else (some 128, some 256)
  else (some 128, some 256)

/-- Lines 522-548: the `(windowCenter, windowWidth)` pair handed to
`viewport.setProperties({ voiRange })`. -/
def resolveVoi (r : VoiInput) : Option ℚ × Option ℚ :=
  if r.windowCenter = none ∨ r.windowWidth = none ∨
      r.windowCenter = some 0 ∨ r.windowWidth = some 0 then
    defaultVoi r.modality r.photometric r.bitsAllocated
  else (r.windowCenter, r.windowWidth)

/-! ## Display parameter resolution, Trial variant
(`Trial.tsx` 420-491)

Pixel statistics computed from the decoded scalar data (a typed array, hence
finite values) and the auto-windowing strategy chain, modality adjustments
and final safety checks.  `isFinite` is identically true on the `ℚ`
embedding of typed-array statistics, so the `!isFinite(...)` disjuncts of
the source are noted where they occur but never fire. -/

structure PixelStats where
  min : ℚ
  max : ℚ
  mean : ℚ
  nonZeroMean : ℚ
  p1 : ℚ
  p99 : ℚ
  p5 : ℚ
  p95 : ℚ
  length : Nat
  nonZeroCount : Nat
  deriving DecidableEq

/-- Lines 480-491: `if (windowWidth <= 0 || !isFinite(windowWidth))`
replace with `Math.max(1, max - min)`; `if (windowWidth < 1)` force 1000. -/
def clampWidth (ww : ℚ) (s : PixelStats) : ℚ :=
  let w1 := if ww ≤ 0 then max 1 (s.max - s.min) else ww
  if w1 < 1 then 1000 else w1

/-- Lines 484-486: `if (!isFinite(windowCenter)) windowCenter = mean` —
never fires over finite statistics. -/
def clampCenter (wc : ℚ) (_s : PixelStats) : ℚ := wc

/-- Lines 431-443: strategy chain — percentile window, else full range,
else the 1000/500 default. -/
def strategyWindow (s : PixelStats) : ℚ × ℚ :=
  if s.p1 < s.p99 then (s.p99 - s.p1, (s.p99 + s.p1) / 2)
  else if s.min < s.max then (s.max - s.min, (s.max + s.min) / 2)
  else (1000, 500)

/-- Lines 446-478: the `switch (currentSeries.modality.toUpperCase())`
adjustments, taking and returning `(windowWidth, windowCenter)`. -/
def modalityAdjust (m : String) (s : PixelStats) (w : ℚ × ℚ) : ℚ × ℚ :=
  let ww := w.1
  let wc := w.2
  if m.toUpper = "CT" then
    if ww < 50 ∨ wc < -1000 ∨ 3000 < wc then (400, 40) else (ww, wc)
  else if m.toUpper = "MR" then
    if (s.length : ℚ) * (1 / 10) < (s.nonZeroCount : ℚ) then
      (max ww ((s.p95 - s.p5) * (3 / 2)), s.nonZeroMean)
    else (ww, wc)
  else if m.toUpper = "US" then (max ww (s.max - s.min), wc)
  else if m.toUpper = "CR" ∨ m.toUpper = "DX" then
    (max ww ((s.p95 - s.p5) * 2), (s.p95 + s.p5) / 2)
  else (ww, wc)

/-- The full auto-windowing computation of `loadDicomImage`
(`Trial.tsx` 420-491): strategy chain, optional modality adjustment
(`currentSeries?.modality`), then the final safety checks.  Returns
`(windowWidth, windowCenter)` as passed to `viewport.setProperties`. -/
def autoWindow (s : PixelStats) (modality : Option String) : ℚ × ℚ :=
  let w0 := strategyWindow s
  let w1 := match modality with
            | some m => modalityAdjust m s w0
            | none => w0
  (clampWidth w1.1 s, clampCenter w1.2 s)

/-! ## Failure/retry loop of the second variant's `updateStack`
(`Viewer.tsx` 1527-1550)

`attempts` starts at 0 with `maxAttempts = imageIds.length + 1`; each loop
iteration attempts one `loadAndCacheImage`; on failure `attempts++` and the
probe moves to `(currentIndex + attempts) % len`; when `attempts` reaches
`maxAttempts` the loop throws (`"No valid images found in series"`) and the
surrounding catch enters the error state.  `fails i = true` models the load
of image index `i` throwing (decode error or missing pixel data). -/

def retryGo (fails : Nat → Bool) (len cur : Nat) :
    Nat → Nat → Option Nat × Nat
  | 0, a => (none, a)
  | r + 1, a =>
      let idx := (cur + a) % len
      if fails idx then retryGo fails len cur r (a + 1) else (some idx, a + 1)

/-- The whole retry loop: returns the index whose load succeeded (or `none`
for the terminal throw) together with the number of load attempts made. -/
def updateStackRetry (fails : Nat → Bool) (len cur : Nat) : Option Nat × Nat :=
  retryGo fails len cur (len + 1) 0

/-! ## Navigation (`Viewer.tsx` 1838-1886, 1998-2038)

`handleScroll` clamps `currentIndex + Math.sign(deltaY)` into
`[0, len - 1]`; `handleKeyDown` moves by one only when strictly inside the
respective boundary; the previous/next toolbar buttons clamp with
`Math.max(0, ...)` / `Math.min(len - 1 || 0, ...)` (for `len ≥ 1` the
`|| 0` coincides with `len - 1`). -/

inductive NavOp
  | wheel (deltaY : Int)
  | arrowLeft
  | arrowRight
  | prevButton
  | nextButton
  deriving DecidableEq

def navStep (len : Nat) (c : Int) : NavOp → Int
  | .wheel d => min (max 0 (c + Int.sign d)) ((len : Int) - 1)
  | .arrowLeft => if 0 < c then c - 1 else c
  | .arrowRight => if c < (len : Int) - 1 then c + 1 else c
  | .prevButton => max 0 (c - 1)
  | .nextButton => min ((len : Int) - 1) (c + 1)

def runNav (len : Nat) (c : Int) (ops : List NavOp) : Int :=
  ops.foldl (navStep len) c

/-! ## In-flight load bookkeeping of `updateStack`
(`Viewer.tsx` 1498-1617)

Each run of the `updateStack` effect starts an async function that captures
the `selectedSeries` and `currentIndex` of its closure.  When the awaited
image load resolves, the continuation unconditionally applies the captured
values (`setMetadata(imageMetadata)`,
`await viewport.setStack(selectedSeries.imageIds, currentIndex)`,
`setZoomLevel(...)`, lines 1578-1604): the source contains no generation
token, and nothing compares the captured values against the session's
current selection before applying them.  The machine below records the
started-but-unresolved loads in order; resolving the `k`-th pending load
writes its captured request into `applied` (the displayed image, metadata
and zoom), whatever else happened in between. -/

structure LoadReq where
  seriesUID : String
  index : Nat
  deriving DecidableEq

structure LoaderState where
  pending : List LoadReq
  applied : Option LoadReq
  deriving DecidableEq

inductive LoadEvent
  | start (r : LoadReq)
  | resolve (k : Nat)
  deriving DecidableEq

def loadStep (s : LoaderState) : LoadEvent → LoaderState
  | .start r => { s with pending := s.pending ++ [r] }
  | .resolve k =>
      match s.pending[k]? with
      | some r => { pending := s.pending.eraseIdx k, applied := some r }
      | none => s

def runLoadTrace (s : LoaderState) (es : List LoadEvent) : LoaderState :=
  es.foldl loadStep s

/-! ## Lemmas about the stable sort -/

theorem mem_insertByKey {key : α → Int} (x : α) (l : List α) (y : α) :
    y ∈ insertByKey key x l ↔ y = x ∨ y ∈ l := by
  induction l with
  | nil => simp [insertByKey]
  | cons z zs ih =>
      simp only [insertByKey]
      split
      · simp only [List.mem_cons, ih]
        tauto
      · simp only [List.mem_cons]

theorem insertByKey_pairwise {key : α → Int} {x : α} {l : List α}
    (h : l.Pairwise (fun a b => key a ≤ key b)) :
    (insertByKey key x l).Pairwise (fun a b => key a ≤ key b) := by
  induction l with
  | nil => simp [insertByKey]
  | cons z zs ih =>
      rcases List.pairwise_cons.1 h with ⟨hz, hzs⟩
      simp only [insertByKey]
      split
      next hle =>
        refine List.pairwise_cons.2 ⟨?_, ih hzs⟩
        intro y hy
        rcases (mem_insertByKey x zs y).1 hy with rfl | hy'
        · exact hle
        · exact hz y hy'
      next hlt =>
        refine List.pairwise_cons.2 ⟨?_, h⟩
        intro y hy
        rcases List.mem_cons.1 hy with rfl | hy'
        · omega
        · have := hz y hy'
          omega

theorem filter_insertByKey {key : α → Int} {k : Int} {x : α} {l : List α}
    (h : l.Pairwise (fun a b => key a ≤ key b)) :
    (insertByKey key x l).filter (fun y => key y = k) =
      l.filter (fun y => key y = k) ++ (if key x = k then [x] else []) := by
  induction l with
  | nil =>
      simp only [insertByKey, List.filter_cons, List.filter_nil, List.nil_append]
      split <;> simp_all
  | cons z zs ih =>
      rcases List.pairwise_cons.1 h with ⟨hz, hzs⟩
      simp only [insertByKey]
      split
      next hle =>
        simp only [List.filter_cons]
        rw [ih hzs]
        split <;> simp
      next hlt =>
        have hxz : key x < key z := by omega
        by_cases hk : key x = k
        · have hnil : (z :: zs).filter (fun y => key y = k) = [] := by
            rw [List.filter_eq_nil_iff]
            intro y hy
            rcases List.mem_cons.1 hy with rfl | hy'
            · simp only [decide_eq_true_eq]
              omega
            · have := hz y hy'
              simp only [decide_eq_true_eq]
              omega
          simp [List.filter_cons, hk, hnil]
        · simp [List.filter_cons, hk]

theorem sortByKey_go_pairwise {key : α → Int} :
    ∀ (l acc : List α), acc.Pairwise (fun a b => key a ≤ key b) →
      (l.foldl (fun acc x => insertByKey key x acc) acc).Pairwise
        (fun a b => key a ≤ key b) := by
  intro l
  induction l with
  | nil => intro acc h; exact h
  | cons x xs ih =>
      intro acc h
      exact ih (insertByKey key x acc) (insertByKey_pairwise h)

theorem sortByKey_pairwise {key : α → Int} (l : List α) :
    (sortByKey key l).Pairwise (fun a b => key a ≤ key b) :=
  sortByKey_go_pairwise l [] (by simp)

theorem sortByKey_go_filter {key : α → Int} {k : Int} :
    ∀ (l acc : List α), acc.Pairwise (fun a b => key a ≤ key b) →
      (l.foldl (fun acc x => insertByKey key x acc) acc).filter
          (fun y => key y = k) =
        acc.filter (fun y => key y = k) ++ l.filter (fun y => key y = k) := by
  intro l
  induction l with
  | nil => intro acc h; simp
  | cons x xs ih =>
      intro acc h
      simp only [List.foldl_cons]
      rw [ih (insertByKey key x acc) (insertByKey_pairwise h),
        filter_insertByKey h, List.filter_cons, List.append_assoc]
      split <;> simp_all

theorem sortByKey_filter {key : α → Int} (l : List α) (k : Int) :
    (sortByKey key l).filter (fun y => key y = k) =
      l.filter (fun y => key y = k) :=
  by simpa using sortByKey_go_filter l [] (by simp)

theorem sortByKey_go_mem {key : α → Int} :
    ∀ (l acc : List α) (y : α),
      y ∈ l.foldl (fun acc x => insertByKey key x acc) acc ↔ y ∈ acc ∨ y ∈ l := by
  intro l
  induction l with
  | nil => simp
  | cons x xs ih =>
      intro acc y
      simp only [List.foldl_cons, ih, mem_insertByKey, List.mem_cons]
      tauto

theorem mem_sortByKey {key : α → Int} {l : List α} {y : α} :
    y ∈ sortByKey key l ↔ y ∈ l := by
  simpa [sortByKey] using sortByKey_go_mem l [] y

/-! ## Lemmas about the group fold -/

theorem getLast?_map_getD {β : Type} {g : β → String} (m : β) (L : List β)
    (d : String) :
    (((m :: L).getLast?).map g).getD d = ((L.getLast?).map g).getD (g m) := by
  cases L with
  | nil => rfl
  | cons b l =>
      rw [List.getLast?_cons_cons]
      obtain ⟨y, hy⟩ := Option.isSome_iff_exists.1
        (List.getLast?_isSome.2 (List.cons_ne_nil b l))
      rw [hy]
      rfl

/-- Characterization of the per-group file fold (`Viewer.tsx` 1284-1335):
key and synthetic number are untouched, image ids of successfully parsed
files are appended in input order, failures are appended in input order, and
the modality is that of the last successfully parsed file (the starting
modality when none parses). -/
theorem assembleFiles_spec :
    ∀ (files : List DicomFile) (s : Series) (errs : List String),
      (assembleFiles s errs files).1.seriesInstanceUID = s.seriesInstanceUID ∧
      (assembleFiles s errs files).1.seriesNumber = s.seriesNumber ∧
      (assembleFiles s errs files).1.imageIds = s.imageIds ++ validIds files ∧
      (assembleFiles s errs files).2 = errs ++ failedNames files ∧
      (assembleFiles s errs files).1.modality =
        (((files.filterMap (fun f => f.parse)).getLast?).map effModality).getD
          s.modality := by
  intro files
  induction files with
  | nil => intro s errs; simp [assembleFiles, validIds, failedNames]
  | cons f fs ih =>
      intro s errs
      match hf : f.parse with
      | some m =>
          have step : assembleFiles s errs (f :: fs) =
              assembleFiles
                { s with modality := effModality m
                         imageIds := s.imageIds ++ [f.imageId] } errs fs := by
            simp [assembleFiles, assembleFile, hf, effModality]
          rw [step]
          rcases ih { s with modality := effModality m
                             imageIds := s.imageIds ++ [f.imageId] } errs with
            ⟨h1, h2, h3, h4, h5⟩
          refine ⟨h1, h2, ?_, ?_, ?_⟩
          · rw [h3]
            simp [validIds, List.filter_cons, hf]
          · rw [h4]
            simp [failedNames, List.filter_cons, hf]
          · rw [h5]
            have : (f :: fs).filterMap (fun f => f.parse) =
                m :: fs.filterMap (fun f => f.parse) := by
              simp [List.filterMap_cons, hf]
            rw [this, getLast?_map_getD]
      | none =>
          have step : assembleFiles s errs (f :: fs) =
              assembleFiles s (errs ++ [f.name]) fs := by
            simp [assembleFiles, assembleFile, hf]
          rw [step]
          rcases ih s (errs ++ [f.name]) with ⟨h1, h2, h3, h4, h5⟩
          refine ⟨h1, h2, ?_, ?_, ?_⟩
          · rw [h3]
            simp [validIds, List.filter_cons, hf]
          · rw [h4]
            simp [failedNames, List.filter_cons, hf]
          · rw [h5]
            have : (f :: fs).filterMap (fun f => f.parse) =
                fs.filterMap (fun f => f.parse) := by
              simp [List.filterMap_cons, hf]
            rw [this]

/-! ## Lemmas about the map of series -/

theorem mem_mapSet_self (m : List Series) (t : Series) : t ∈ mapSet m t := by
  induction m with
  | nil => simp [mapSet]
  | cons z zs ih =>
      simp only [mapSet]
      split
      · simp
      · simp [ih]

theorem mem_mapSet_of_mem {m : List Series} {s t : Series} (hs : s ∈ m)
    (hne : s.seriesInstanceUID ≠ t.seriesInstanceUID) : s ∈ mapSet m t := by
  induction m with
  | nil => simp at hs
  | cons z zs ih =>
      simp only [mapSet]
      rcases List.mem_cons.1 hs with rfl | hs'
      · split
        next heq => exact absurd heq hne
        next => simp
      · split
        · simp [hs']
        · simp [ih hs']

theorem mem_of_mem_mapSet {m : List Series} {s t : Series}
    (h : s ∈ mapSet m t) : s ∈ m ∨ s = t := by
  induction m with
  | nil => simp [mapSet] at h; tauto
  | cons z zs ih =>
      simp only [mapSet] at h
      split at h
      · rcases List.mem_cons.1 h with rfl | h'
        · tauto
        · exact Or.inl (List.mem_cons.2 (Or.inr h'))
      · rcases List.mem_cons.1 h with rfl | h'
        · exact Or.inl (List.mem_cons.2 (Or.inl rfl))
        · rcases ih h' with h'' | h''
          · exact Or.inl (List.mem_cons.2 (Or.inr h''))
          · tauto

/-! ## Lemmas about `processGroup` / `processGroups` -/

theorem groupStart_uid (m : List Series) (key : String) :
    (groupStart m key).seriesInstanceUID = key := by
  unfold groupStart
  cases hf : m.find? (fun s => s.seriesInstanceUID = key) with
  | none => rfl
  | some t =>
      have := List.find?_some hf
      simpa using this

theorem groupStart_fresh {m : List Series} {key : String}
    (h : ∀ t ∈ m, t.seriesInstanceUID ≠ key) :
    groupStart m key =
      { seriesInstanceUID := key
        seriesNumber := m.length + 1
        modality := "OT"
        imageIds := [] } := by
  unfold groupStart
  rw [List.find?_eq_none.2 (by intro t ht; simpa using h t ht)]

/-- The series inserted by `processGroup` carries the group's key. -/
theorem processGroup_result_uid (acc : List Series × List String)
    (g : String × List DicomFile) :
    (assembleFiles (groupStart acc.1 g.1) acc.2 g.2).1.seriesInstanceUID = g.1 := by
  rw [(assembleFiles_spec g.2 (groupStart acc.1 g.1) acc.2).1, groupStart_uid]

theorem processGroup_mem {acc : List Series × List String}
    {g : String × List DicomFile} {s : Series}
    (h : s ∈ (processGroup acc g).1) :
    s ∈ acc.1 ∨ (s.seriesInstanceUID = g.1 ∧ s.imageIds ≠ []) := by
  simp only [processGroup] at h
  split at h
  · exact Or.inl h
  next hne =>
    rcases mem_of_mem_mapSet h with h' | rfl
    · exact Or.inl h'
    · exact Or.inr ⟨processGroup_result_uid acc g, hne⟩

theorem processGroup_preserve {acc : List Series × List String}
    {g : String × List DicomFile} {s : Series} (hs : s ∈ acc.1)
    (hne : s.seriesInstanceUID ≠ g.1) : s ∈ (processGroup acc g).1 := by
  simp only [processGroup]
  split
  · exact hs
  · exact mem_mapSet_of_mem hs (by rw [processGroup_result_uid acc g]; exact hne)

theorem processGroup_errors (acc : List Series × List String)
    (g : String × List DicomFile) :
    (processGroup acc g).2 = acc.2 ++ failedNames g.2 := by
  simp only [processGroup]
  have h := (assembleFiles_spec g.2 (groupStart acc.1 g.1) acc.2).2.2.2.1
  split <;> simpa using h

/-- A group none of whose key's series exists yet, and with at least one
successfully parsed file, installs exactly the series assembled from its
valid files. -/
theorem processGroup_fresh {acc : List Series × List String}
    {g : String × List DicomFile}
    (hfresh : ∀ t ∈ acc.1, t.seriesInstanceUID ≠ g.1)
    (hvalid : validIds g.2 ≠ []) :
    ∃ s ∈ (processGroup acc g).1,
      s.seriesInstanceUID = g.1 ∧ s.imageIds = validIds g.2 ∧
      s.modality =
        (((g.2.filterMap (fun f => f.parse)).getLast?).map effModality).getD
          "OT" := by
  have hstart := groupStart_fresh hfresh
  have h3 : (assembleFiles (groupStart acc.1 g.1) acc.2 g.2).1.imageIds =
      validIds g.2 := by
    have := (assembleFiles_spec g.2 (groupStart acc.1 g.1) acc.2).2.2.1
    rw [this, hstart]
    simp
  have h5 : (assembleFiles (groupStart acc.1 g.1) acc.2 g.2).1.modality =
      (((g.2.filterMap (fun f => f.parse)).getLast?).map effModality).getD
        "OT" := by
    have := (assembleFiles_spec g.2 (groupStart acc.1 g.1) acc.2).2.2.2.2
    rw [this, hstart]
  refine ⟨(assembleFiles (groupStart acc.1 g.1) acc.2 g.2).1, ?_,
    processGroup_result_uid acc g, h3, h5⟩
  simp only [processGroup]
  split
  next hempty => rw [h3] at hempty; exact absurd hempty hvalid
  next => exact mem_mapSet_self _ _

theorem processGroups_preserve {gs : List (String × List DicomFile)} :
    ∀ {acc : List Series × List String} {s : Series}, s ∈ acc.1 →
      s.seriesInstanceUID ∉ gs.map Prod.fst → s ∈ (processGroups acc gs).1 := by
  induction gs with
  | nil => intro acc s hs _; exact hs
  | cons g gs' ih =>
      intro acc s hs hnot
      simp only [List.map_cons, List.mem_cons] at hnot
      push_neg at hnot
      exact ih (processGroup_preserve hs hnot.1) hnot.2

theorem processGroups_errors (gs : List (String × List DicomFile)) :
    ∀ acc : List Series × List String,
      (processGroups acc gs).2 =
        acc.2 ++ (gs.map (fun g => failedNames g.2)).flatten := by
  induction gs with
  | nil => intro acc; simp [processGroups]
  | cons g gs' ih =>
      intro acc
      simp only [processGroups]
      rw [ih, processGroup_errors]
      simp [List.append_assoc]

theorem processGroups_nonempty {gs : List (String × List DicomFile)} :
    ∀ {acc : List Series × List String},
      (∀ s ∈ acc.1, s.imageIds ≠ []) →
      ∀ s ∈ (processGroups acc gs).1, s.imageIds ≠ [] := by
  induction gs with
  | nil => intro acc h; exact h
  | cons g gs' ih =>
      intro acc h
      refine ih ?_
      intro s hs
      rcases processGroup_mem hs with h' | h'
      · exact h s h'
      · exact h'.2

theorem processGroups_presence {gs : List (String × List DicomFile)} :
    ∀ (acc : List Series × List String),
      (∀ s ∈ acc.1, s.seriesInstanceUID ∉ gs.map Prod.fst) →
      (gs.map Prod.fst).Nodup →
      ∀ g ∈ gs, validIds g.2 ≠ [] →
        ∃ s ∈ (processGroups acc gs).1,
          s.seriesInstanceUID = g.1 ∧ s.imageIds = validIds g.2 ∧
          s.modality =
            (((g.2.filterMap (fun f => f.parse)).getLast?).map
              effModality).getD "OT" := by
  induction gs with
  | nil => intro acc _ _ g hg; simp at hg
  | cons g' gs' ih =>
      intro acc hacc hnodup g hg hvalid
      rw [List.map_cons, List.nodup_cons] at hnodup
      obtain ⟨hhead, hnodup'⟩ := hnodup
      rcases List.mem_cons.1 hg with rfl | hg'
      · have hfresh : ∀ t ∈ acc.1, t.seriesInstanceUID ≠ g.1 := by
          intro t ht
          have := hacc t ht
          simp only [List.map_cons, List.mem_cons] at this
          push_neg at this
          exact this.1
        rcases processGroup_fresh hfresh hvalid with ⟨s, hmem, huid, hids, hmod⟩
        refine ⟨s, ?_, huid, hids, hmod⟩
        simp only [processGroups]
        exact processGroups_preserve hmem (by rw [huid]; exact hhead)
      · simp only [processGroups]
        refine ih _ ?_ hnodup' g hg' hvalid
        intro s hs
        rcases processGroup_mem hs with h' | h'
        · have := hacc s h'
          simp only [List.map_cons, List.mem_cons] at this
          push_neg at this
          exact this.2
        · rw [h'.1]
          exact hhead

/-! ## Lemmas about the retry loop -/

theorem retryGo_spec (fails : Nat → Bool) (len cur : Nat) :
    ∀ (r a : Nat),
      (retryGo fails len cur r a).2 ≤ a + r ∧
      ((retryGo fails len cur r a).1 = none →
        (retryGo fails len cur r a).2 = a + r) ∧
      (∀ i, (retryGo fails len cur r a).1 = some i →
        fails i = false ∧
        i = (cur + ((retryGo fails len cur r a).2 - 1)) % len) := by
  intro r
  induction r with
  | zero => intro a; simp [retryGo]
  | succ r ih =>
      intro a
      simp only [retryGo]
      split
      next hf =>
        rcases ih (a + 1) with ⟨h1, h2, h3⟩
        exact ⟨by omega, fun h => by rw [h2 h]; omega, h3⟩
      next hf =>
        refine ⟨by omega, by simp, ?_⟩
        intro i hi
        simp only [Option.some.injEq] at hi
        subst hi
        exact ⟨by simpa using hf, by simp⟩

theorem retryGo_all_fail (fails : Nat → Bool) (len cur : Nat)
    (hall : ∀ i, fails i = true) :
    ∀ (r a : Nat), retryGo fails len cur r a = (none, a + r) := by
  intro r
  induction r with
  | zero => intro a; simp [retryGo]
  | succ r ih =>
      intro a
      simp only [retryGo, hall ((cur + a) % len), if_true]
      rw [ih (a + 1)]
      congr 1
      omega

/-! ## Lemmas about navigation -/

theorem navStep_range {len : Nat} (hlen : 0 < len) {c : Int} (h0 : 0 ≤ c)
    (h1 : c ≤ (len : Int) - 1) (op : NavOp) :
    0 ≤ navStep len c op ∧ navStep len c op ≤ (len : Int) - 1 := by
  have hl : (1 : Int) ≤ (len : Int) := by exact_mod_cast hlen
  cases op with
  | wheel d =>
      simp only [navStep]
      constructor
      · exact le_min (le_max_left 0 _) (by omega)
      · exact min_le_right _ _
  | arrowLeft =>
      simp only [navStep]
      split <;> omega
  | arrowRight =>
      simp only [navStep]
      split <;> omega
  | prevButton =>
      simp only [navStep]
      constructor
      · exact le_max_left 0 _
      · exact max_le (by omega) (by omega)
  | nextButton =>
      simp only [navStep]
      constructor
      · exact le_min (by omega) (by omega)
      · exact min_le_left _ _

theorem runNav_range {len : Nat} (hlen : 0 < len) :
    ∀ (ops : List NavOp) (c : Int), 0 ≤ c → c ≤ (len : Int) - 1 →
      0 ≤ runNav len c ops ∧ runNav len c ops ≤ (len : Int) - 1 := by
  intro ops
  induction ops with
  | nil => intro c h0 h1; exact ⟨h0, h1⟩
  | cons op ops' ih =>
      intro c h0 h1
      rcases navStep_range hlen h0 h1 op with ⟨h0', h1'⟩
      exact ih (navStep len c op) h0' h1'

/-! ## Lemmas about the Trial safety clamp -/

theorem one_le_clampWidth (ww : ℚ) (s : PixelStats) : 1 ≤ clampWidth ww s := by
  simp only [clampWidth]
  split_ifs with h1 h2 h3
  · norm_num
  · linarith [le_max_left (1 : ℚ) (s.max - s.min)]
  · norm_num
  · linarith

theorem clampWidth_nonpos {ww : ℚ} (s : PixelStats) (h : ww ≤ 0) :
    clampWidth ww s = max 1 (s.max - s.min) := by
  simp only [clampWidth, if_pos h]
  rw [if_neg]
  push_neg
  exact le_max_left 1 _

theorem one_le_autoWindow_width (s : PixelStats) (m : Option String) :
    1 ≤ (autoWindow s m).1 := by
  cases m <;> simp only [autoWindow] <;> exact one_le_clampWidth _ _

/-! ## Concrete fixtures used by counterexamples and witnesses -/

/-- File with `instanceNumber 3`, modality CT. -/
def fileA : DicomFile := ⟨"a.dcm", "wadouri:a", some ⟨some "CT", some 3⟩⟩

/-- File with `instanceNumber 1`, modality CT. -/
def fileB : DicomFile := ⟨"b.dcm", "wadouri:b", some ⟨some "CT", some 1⟩⟩

/-- File with `instanceNumber 2`, modality MR. -/
def fileC : DicomFile := ⟨"c.dcm", "wadouri:c", some ⟨some "MR", some 2⟩⟩

/-- Malformed file: `dicomParser.parseDicom` throws. -/
def fileBad : DicomFile := ⟨"corrupt.dcm", "wadouri:bad", none⟩

/-- Load request captured by an `updateStack` run for series A, index 2. -/
def loadA : LoadReq := ⟨"seriesA", 2⟩

/-- Load request captured by a later `updateStack` run for series B, index 0. -/
def loadB : LoadReq := ⟨"seriesB", 0⟩

/-! ## Claims -/

/-- C1, counterexample.  Start the load of A, then the load of B, let B
resolve first and A resolve last: the session ends up displaying A, not B.
The code has no generation token — the resumed `updateStack` continuation
applies its captured series/index unconditionally — so the claim that only
B's result is applied is false on this trace. -/
theorem C1_counterexample_stale_load_applied :
    (runLoadTrace ⟨[], none⟩
      [.start loadA, .start loadB, .resolve 1, .resolve 0]).applied =
        some loadA ∧
    loadA ≠ loadB := by decide

/-- C1, amended.  `updateStack` (`Viewer.tsx` 1498-1617) allocates no
generation token: a completing load always applies its captured result to
the session state, whatever was started in between (last completion wins),
and starting a new load leaves the prior in-flight load's eventual
application untouched. -/
theorem C1_amended_last_completion_wins :
    ∀ (s : LoaderState) (k : Nat) (r : LoadReq),
      s.pending[k]? = some r →
      (loadStep s (.resolve k)).applied = some r ∧
      (loadStep s (.start r)).applied = s.applied := by
  intro s k r h
  constructor
  · simp [loadStep, h]
  · simp [loadStep]

/-- C1, witness for the amended theorem at a concrete state. -/
theorem C1_amended_witness :
    (loadStep ⟨[loadA], some loadB⟩ (.resolve 0)).applied = some loadA ∧
    (loadStep ⟨[loadA], some loadB⟩ (.start loadA)).applied = some loadB :=
  C1_amended_last_completion_wins ⟨[loadA], some loadB⟩ 0 loadA rfl

/-- C2, counterexample.  Three files with `instanceNumber` 3, 1, 2 in one
shared group: `processFiles` emits their image ids in input order
(instance order 3, 1, 2), not sorted ascending by instance number. -/
theorem C2_counterexample_unsorted_imageIds :
    (processFiles [("SeriesFolder", [fileA, fileB, fileC])]).1.map
        (fun s => s.imageIds) = [["wadouri:a", "wadouri:b", "wadouri:c"]] ∧
    (processFiles [("SeriesFolder", [fileA, fileB, fileC])]).1.map
        (fun s => s.imageIds) ≠ [["wadouri:b", "wadouri:c", "wadouri:a"]] := by
  decide

/-- C2, amended.  The Viewer assembler (`Viewer.tsx` 1284-1340) keeps the
group's input order and never sorts by `instanceNumber`; only the Trial
variant (`Trial.tsx` 336-353) sorts a clicked series ascending by
`instanceNumber`, stably (ties keep first-seen order), so the 3, 1, 2
scenario comes out as instance order 1, 2, 3 only through
`handleSeriesClick`. -/
theorem C2_amended_input_order_and_trial_sort :
    (∀ (s : Series) (errs : List String) (files : List DicomFile),
        (assembleFiles s errs files).1.imageIds = s.imageIds ++ validIds files) ∧
    (∀ l : List TrialInstance,
        (sortByKey instKey l).Pairwise (fun a b => instKey a ≤ instKey b)) ∧
    (∀ (l : List TrialInstance) (k : Int),
        (sortByKey instKey l).filter (fun i => instKey i = k) =
          l.filter (fun i => instKey i = k)) ∧
    handleSeriesClickIds [⟨"a", some 3⟩, ⟨"b", some 1⟩, ⟨"c", some 2⟩] =
      ["b", "c", "a"] :=
  ⟨fun s errs files => (assembleFiles_spec files s errs).2.2.1,
   fun l => sortByKey_pairwise l,
   fun l k => sortByKey_filter l k,
   by decide⟩

/-- C3.  No `Series` emitted by `processFiles` has an empty image list: a
group whose every file failed parsing is dropped by the
`series.imageIds.length > 0` guard (`Viewer.tsx` 1337-1339). -/
theorem C3_nonempty_series :
    ∀ (groups : List (String × List DicomFile)) (s : Series),
      s ∈ (processFiles groups).1 → s.imageIds ≠ [] := by
  intro groups s hs
  simp only [processFiles] at hs
  exact processGroups_nonempty (by simp) s (mem_sortByKey.1 hs)

/-- C3, witness: a one-good-file batch, evaluated. -/
theorem C3_nonempty_series_witness :
    ({ seriesInstanceUID := "S", seriesNumber := 1, modality := "CT",
       imageIds := ["wadouri:b"] } : Series).imageIds ≠ [] :=
  C3_nonempty_series [("S", [fileB])] _ (by decide)

/-- C4.  Partial-failure semantics of `processFiles`
(`Viewer.tsx` 1284-1369): every malformed file is skipped and reported by
name (one entry per failure, surfaced alongside the series list, not
instead of it), while each group with at least one valid file yields a
series assembled from exactly its valid files; the whole computation is a
total function, so no exception escapes the batch call. -/
theorem C4_partial_failure_semantics :
    ∀ groups : List (String × List DicomFile),
      (processFiles groups).2 =
        (groups.map (fun g => failedNames g.2)).flatten ∧
      ((groups.map Prod.fst).Nodup →
        ∀ g ∈ groups, validIds g.2 ≠ [] →
          ∃ s ∈ (processFiles groups).1,
            s.seriesInstanceUID = g.1 ∧ s.imageIds = validIds g.2) := by
  intro groups
  constructor
  · simp only [processFiles]
    simpa using processGroups_errors groups ([], [])
  · intro hnd g hg hv
    rcases processGroups_presence
        ((([], []) : List Series × List String)) (by simp) hnd g hg hv
      with ⟨s, hmem, h1, h2, _⟩
    refine ⟨s, ?_, h1, h2⟩
    simp only [processFiles]
    exact mem_sortByKey.2 hmem

/-- C4, witness: one corrupt file and one valid file in separate groups —
the valid file's series is present in the output. -/
theorem C4_partial_failure_witness :
    ∃ s ∈ (processFiles [("k1", [fileBad]), ("k2", [fileB])]).1,
      s.seriesInstanceUID = "k2" ∧ s.imageIds = validIds [fileB] :=
  (C4_partial_failure_semantics [("k1", [fileBad]), ("k2", [fileB])]).2
    (by decide) ("k2", [fileB]) (by decide) (by decide)

/-- The own keys of `DEFAULT_VOI` and the `Object.prototype` property names
are disjoint modality strings. -/
theorem protoKeys_not_own_keys :
    ∀ m ∈ protoKeys, m ∉ ["CT", "MR", "MONOCHROME", "DEFAULT"] := by decide

/-- C5, counterexample.  The claim's table rows "monochrome at 16 bits →
2048/4096" fail on modality strings that collide with `DEFAULT_VOI`'s own
keys or with `Object.prototype` properties: a monochrome 16-bit record of
modality `"DEFAULT"` resolves to 128/256 via the key collision, one of
modality `"MONOCHROME"` destructures the table's stored function to
`undefined`/`undefined`, and one of modality `"toString"` hits the
prototype chain and likewise yields `undefined`/`undefined`. -/
theorem C5_counterexample_table_key_collision :
    resolveVoi ⟨none, none, "DEFAULT", "MONOCHROME2", 16⟩ =
      (some 128, some 256) ∧
    ((some 128, some 256) : Option ℚ × Option ℚ) ≠ (some 2048, some 4096) ∧
    resolveVoi ⟨none, none, "MONOCHROME", "MONOCHROME2", 16⟩ = (none, none) ∧
    resolveVoi ⟨none, none, "toString", "MONOCHROME2", 16⟩ = (none, none) := by
  decide

/-- C5, amended.  With `windowCenter`/`windowWidth` absent or unparseable,
the first Viewer variant (`Viewer.tsx` 511-548) resolves among monochrome
records: CT to 0/400, MR to 500/1000; a modality with no `DEFAULT_VOI` key
and no `Object.prototype` property of that name gets the
`bitsAllocated`-based default (2048/4096 at 16 bits, 128/256 otherwise);
but a modality colliding with the table key `"DEFAULT"` gets 128/256
regardless of bit depth, and one colliding with `"MONOCHROME"` or with an
`Object.prototype` property name destructures to `undefined`/`undefined`.
Color photometric interpretations get 128/256. -/
theorem C5_amended_default_voi_table :
    ∀ r : VoiInput,
      r.windowCenter = none ∨ r.windowWidth = none →
      (includesStr r.photometric "MONOCHROME" = true →
        (r.modality = "CT" → resolveVoi r = (some 0, some 400)) ∧
        (r.modality = "MR" → resolveVoi r = (some 500, some 1000)) ∧
        (r.modality ∉ ["CT", "MR", "MONOCHROME", "DEFAULT"] →
          r.modality ∉ protoKeys →
          r.bitsAllocated = 16 → resolveVoi r = (some 2048, some 4096)) ∧
        (r.modality ∉ ["CT", "MR", "MONOCHROME", "DEFAULT"] →
          r.modality ∉ protoKeys →
          r.bitsAllocated ≠ 16 → resolveVoi r = (some 128, some 256)) ∧
        (r.modality = "DEFAULT" → resolveVoi r = (some 128, some 256)) ∧
        (r.modality = "MONOCHROME" → resolveVoi r = (none, none)) ∧
        (r.modality ∈ protoKeys → resolveVoi r = (none, none))) ∧
      (includesStr r.photometric "MONOCHROME" = false →
        resolveVoi r = (some 128, some 256)) := by
  intro r habs
  have hres : resolveVoi r = defaultVoi r.modality r.photometric r.bitsAllocated := by
    simp only [resolveVoi]
    rw [if_pos]
    rcases habs with h | h
    · exact Or.inl h
    · exact Or.inr (Or.inl h)
  rw [hres]
  constructor
  · intro hmono
    refine ⟨?_, ?_, ?_, ?_, ?_, ?_, ?_⟩
    · intro hct
      simp [defaultVoi, hmono, hct]
    · intro hmr
      simp [defaultVoi, hmono, hmr]
    · intro hnot hp h16
      simp only [List.mem_cons, List.not_mem_nil, or_false, not_or] at hnot
      simp [defaultVoi, hmono, hnot.1, hnot.2.1, hnot.2.2.1, hnot.2.2.2, hp,
        h16]
    · intro hnot hp h16
      simp only [List.mem_cons, List.not_mem_nil, or_false, not_or] at hnot
      simp [defaultVoi, hmono, hnot.1, hnot.2.1, hnot.2.2.1, hnot.2.2.2, hp,
        h16]
    · intro hdef
      simp [defaultVoi, hmono, hdef]
    · intro hmc
      simp [defaultVoi, hmono, hmc]
    · intro hp
      have hnot := protoKeys_not_own_keys r.modality hp
      simp only [List.mem_cons, List.not_mem_nil, or_false, not_or] at hnot
      simp [defaultVoi, hmono, hnot.1, hnot.2.1, hnot.2.2.1, hnot.2.2.2, hp]
  · intro hcolor
    simp [defaultVoi, hcolor]

/-- C5, witness for the amended theorem: a CT record with both windowing
tags absent resolves to center 0 / width 400, and a plain-modality (US)
monochrome 16-bit record to 2048/4096. -/
theorem C5_amended_default_voi_table_witness :
    resolveVoi ⟨none, none, "CT", "MONOCHROME2", 16⟩ = (some 0, some 400) ∧
    resolveVoi ⟨none, none, "US", "MONOCHROME1", 16⟩ =
      (some 2048, some 4096) :=
  ⟨((C5_amended_default_voi_table ⟨none, none, "CT", "MONOCHROME2", 16⟩
      (Or.inl rfl)).1 (by decide)).1 rfl,
   ((C5_amended_default_voi_table ⟨none, none, "US", "MONOCHROME1", 16⟩
      (Or.inl rfl)).1 (by decide)).2.2.1 (by decide) (by decide) rfl⟩

/-- C6, counterexample.  A record whose `windowWidth` tag parses to `-5`
(truthy and not `NaN`) passes the guard of `Viewer.tsx` 529-534 untouched:
the resolver hands the renderer a window width of `-5`, which is not
strictly positive, so the output guarantee fails as stated. -/
theorem C6_counterexample_negative_width_passthrough :
    resolveVoi ⟨some 40, some (-5), "CT", "MONOCHROME2", 16⟩ =
      (some 40, some (-5)) ∧
    ¬ (0 < (-5 : ℚ)) := by decide

/-- C6, amended.  The Trial variant's auto-windowing (`Trial.tsx` 420-491)
does guarantee a window width of at least 1 (hence strictly positive and,
being a rational of the embedding, finite), and its safety clamp replaces a
non-positive width by `max(1, max - min)` exactly as claimed; the first
Viewer variant's metadata path, however, has no such clamp and passes a
negative parsed width through. -/
theorem C6_amended_trial_clamp :
    (∀ (s : PixelStats) (m : Option String), 1 ≤ (autoWindow s m).1) ∧
    (∀ (ww : ℚ) (s : PixelStats), ww ≤ 0 →
      clampWidth ww s = max 1 (s.max - s.min)) :=
  ⟨one_le_autoWindow_width, fun _ww s h => clampWidth_nonpos s h⟩

/-- C6, witness for the amended theorem at concrete statistics. -/
theorem C6_amended_trial_clamp_witness :
    1 ≤ (autoWindow ⟨0, 0, 0, 0, 0, 0, 0, 0, 10, 0⟩ (some "CT")).1 ∧
    clampWidth (-3) ⟨0, 100, 50, 50, 5, 95, 10, 90, 10, 5⟩ =
      max 1 ((100 : ℚ) - 0) :=
  ⟨C6_amended_trial_clamp.1 ⟨0, 0, 0, 0, 0, 0, 0, 0, 10, 0⟩ (some "CT"),
   C6_amended_trial_clamp.2 (-3) ⟨0, 100, 50, 50, 5, 95, 10, 90, 10, 5⟩
     (by norm_num)⟩

/-- C7, counterexample.  For a series of length 1 whose single image always
fails, the retry loop (`maxAttempts = imageIds.length + 1`, `Viewer.tsx`
1530-1531) makes 2 load attempts before giving up — more than the claimed
bound of `len = 1` attempts. -/
theorem C7_counterexample_len_plus_one_attempts :
    updateStackRetry (fun _ => true) 1 0 = (none, 2) ∧ ¬ ((2 : Nat) ≤ 1) := by
  decide

/-- C7, amended.  The retry loop of `updateStack` (`Viewer.tsx` 1527-1550)
advances to the next index (`(currentIndex + attempts) % len`) after each
failure and makes at most `len + 1` attempts — one more than the claim
says, the final attempt revisiting the starting index — before giving up:
exhaustion means exactly `len + 1` attempts were made, a success is an
index whose load does not fail, reached at the recorded attempt count, and
if every index fails the loop exhausts and throws into the error path. -/
theorem C7_amended_retry_policy :
    ∀ (fails : Nat → Bool) (len cur : Nat),
      (updateStackRetry fails len cur).2 ≤ len + 1 ∧
      ((updateStackRetry fails len cur).1 = none →
        (updateStackRetry fails len cur).2 = len + 1) ∧
      (∀ i, (updateStackRetry fails len cur).1 = some i →
        fails i = false ∧
        i = (cur + ((updateStackRetry fails len cur).2 - 1)) % len) ∧
      ((∀ i, fails i = true) →
        updateStackRetry fails len cur = (none, len + 1)) := by
  intro fails len cur
  rcases retryGo_spec fails len cur (len + 1) 0 with ⟨h1, h2, h3⟩
  refine ⟨by simpa [updateStackRetry] using h1,
    by simpa [updateStackRetry] using h2,
    by simpa [updateStackRetry] using h3, ?_⟩
  intro hall
  simpa [updateStackRetry] using retryGo_all_fail fails len cur hall (len + 1) 0

/-- C7, witness for the amended theorem: length-2 series, index 0 corrupt,
the retry succeeds on index 1 at the second attempt. -/
theorem C7_amended_retry_policy_witness :
    (fun i => i == 0) 1 = false ∧
    1 = (0 + ((updateStackRetry (fun i => i == 0) 2 0).2 - 1)) % 2 :=
  (C7_amended_retry_policy (fun i => i == 0) 2 0).2.2.1 1 (by decide)

/-- C8.  For a selected series of length `len ≥ 1`, every sequence of wheel
steps, arrow keys and previous/next button presses keeps `currentIndex`
inside `[0, len - 1]` (`Viewer.tsx` 1838-1886, 1998-2038), and each
navigation primitive is a no-op at its boundary. -/
theorem C8_index_clamped :
    ∀ len : Nat, 0 < len →
      (∀ (c : Int), 0 ≤ c → c ≤ (len : Int) - 1 →
        ∀ ops : List NavOp,
          0 ≤ runNav len c ops ∧ runNav len c ops ≤ (len : Int) - 1) ∧
      (navStep len 0 NavOp.arrowLeft = 0 ∧
       navStep len 0 (NavOp.wheel (-1)) = 0 ∧
       navStep len 0 NavOp.prevButton = 0 ∧
       navStep len ((len : Int) - 1) NavOp.arrowRight = (len : Int) - 1 ∧
       navStep len ((len : Int) - 1) (NavOp.wheel 1) = (len : Int) - 1 ∧
       navStep len ((len : Int) - 1) NavOp.nextButton = (len : Int) - 1) := by
  intro len hlen
  have hl : (1 : Int) ≤ (len : Int) := by exact_mod_cast hlen
  constructor
  · intro c h0 h1 ops
    exact runNav_range hlen ops c h0 h1
  · refine ⟨?_, ?_, ?_, ?_, ?_, ?_⟩
    · simp only [navStep]
      split <;> omega
    · simp only [navStep]
      rw [show Int.sign (-1) = -1 from rfl]
      omega
    · simp only [navStep]
      omega
    · simp only [navStep]
      split <;> omega
    · simp only [navStep]
      rw [show Int.sign 1 = 1 from rfl]
      omega
    · simp only [navStep]
      omega

/-- C8, witness: length-3 series, a concrete boundary-crossing sequence. -/
theorem C8_index_clamped_witness :
    0 ≤ runNav 3 0 [NavOp.wheel (-7), NavOp.arrowRight, NavOp.nextButton,
        NavOp.nextButton, NavOp.wheel 9] ∧
    runNav 3 0 [NavOp.wheel (-7), NavOp.arrowRight, NavOp.nextButton,
        NavOp.nextButton, NavOp.wheel 9] ≤ (3 : Int) - 1 :=
  (C8_index_clamped 3 (by norm_num)).1 0 (by norm_num) (by norm_num) _

/-- C9.  The emitted `Series` carries the modality of the last file of its
group that parsed successfully — each success overwrites
`series.modality` (`Viewer.tsx` 1292-1293) — and a group fold with no
successful parse leaves the start value, which is the synthetic default
`"OT"` for a fresh group (`Viewer.tsx` 1280). -/
theorem C9_last_modality_wins :
    ∀ groups : List (String × List DicomFile),
      ((groups.map Prod.fst).Nodup →
        ∀ g ∈ groups, validIds g.2 ≠ [] →
          ∃ s ∈ (processFiles groups).1,
            s.seriesInstanceUID = g.1 ∧
            s.modality =
              (((g.2.filterMap (fun f => f.parse)).getLast?).map
                effModality).getD "OT") ∧
      (∀ (s : Series) (errs : List String) (files : List DicomFile),
        files.filterMap (fun f => f.parse) = [] →
        (assembleFiles s errs files).1.modality = s.modality) := by
  intro groups
  constructor
  · intro hnd g hg hv
    rcases processGroups_presence
        ((([], []) : List Series × List String)) (by simp) hnd g hg hv
      with ⟨s, hmem, h1, _h2, h3⟩
    refine ⟨s, ?_, h1, h3⟩
    simp only [processFiles]
    exact mem_sortByKey.2 hmem
  · intro s errs files h
    rw [(assembleFiles_spec files s errs).2.2.2.2, h]
    rfl

/-- C9, witness: a CT file followed by an MR file in one group — the series
modality is that of the last successful file. -/
theorem C9_last_modality_wins_witness :
    ∃ s ∈ (processFiles [("S", [fileA, fileC])]).1,
      s.seriesInstanceUID = "S" ∧
      s.modality =
        ((([fileA, fileC].filterMap (fun f => f.parse)).getLast?).map
          effModality).getD "OT" :=
  (C9_last_modality_wins [("S", [fileA, fileC])]).1 (by decide)
    ("S", [fileA, fileC]) (by decide) (by decide)

/-- C10.  In the first Viewer variant the guard of `Viewer.tsx` 529-534
tests truthiness of the parsed values, so a `windowCenter` that is present
and parses to exactly `0` is treated as missing: even with a positive
parsed width, the `DEFAULT_VOI` modality table is applied instead of the
record's own pair. -/
theorem C10_zero_center_treated_missing :
    ∀ (r : VoiInput) (w : ℚ),
      r.windowCenter = some 0 → r.windowWidth = some w → 0 < w →
      resolveVoi r = defaultVoi r.modality r.photometric r.bitsAllocated := by
  intro r w h0 _hw _hpos
  simp only [resolveVoi]
  rw [if_pos (Or.inr (Or.inr (Or.inl h0)))]

/-- C10, witness: an MR record carrying center 0 and width 400 resolves to
the MR table default, not its own pair. -/
theorem C10_zero_center_treated_missing_witness :
    resolveVoi ⟨some 0, some 400, "MR", "MONOCHROME2", 16⟩ =
      defaultVoi "MR" "MONOCHROME2" 16 :=
  C10_zero_center_treated_missing ⟨some 0, some 400, "MR", "MONOCHROME2", 16⟩
    400 rfl rfl (by norm_num)

end DicomViewer
